import Mathlib

/-!
Shallow embedding of the customer-record backend in src/main.py: the
Customer/AppSettings data model, the batch synchronizer save_all_data,
the single-record endpoints save_single_customer and delete_single_customer,
the reader load_data, and the token check get_current_user.

JSON dictionaries submitted by clients are modelled by structures holding
exactly the keys the code reads, each as an Option (none meaning the key is
absent), plus an opaque remainder for the rest of the object.  Since
json.dumps and json.loads are mutually inverse on these dictionaries, the
serialized full_data column is modelled by the document value itself.
-/

namespace CustomerSystem

/-- The part of a document under the key personalInfo: the two fields the
code reads via p_info.get, plus the rest of the object kept opaque. -/
structure PersonalInfo where
  name : Option String
  customerService : Option String
  piRest : List (String × String)
deriving DecidableEq, Repr

/-- One customer document as submitted by a client: the keys the code reads
(id, personalInfo, lastUpdated), each none when absent from the dict, plus
the rest of the JSON object kept opaque. -/
structure Doc where
  id : Option String
  personalInfo : Option PersonalInfo
  lastUpdated : Option String
  rest : List (String × String)
deriving DecidableEq, Repr

/-- A row of the Customer table (src/main.py lines 44-49).  The id column is
an Option because the single-record path constructs a session row whose id
is None when the payload lacks the id key; committing such a row fails the
NOT NULL primary-key constraint, so it is never persisted. -/
structure Customer where
  id : Option String
  name : String
  customer_service : String
  full_data : Doc
  last_updated : String
deriving DecidableEq, Repr

/-- The settings blob stored under the appSettings key: the pageSize field
named by the read default, plus an opaque remainder. -/
structure SettingsDoc where
  pageSize : Option Int
  sRest : List (String × String)
deriving DecidableEq, Repr

/-- Persistent state: the Customer table plus the two AppSettings rows, keys
appSettings and nextCustomerId; none means the key has never been written.
The counter row stores str of an integer and is read back with int, which
inverts it, so the slot is modelled by the integer itself. -/
structure Store where
  customers : List Customer
  appSettings : Option SettingsDoc
  nextCustomerId : Option Int
deriving DecidableEq, Repr

/-- Python dict membership for the user table: username in token is a
substring test on the token string. -/
def isPrefixChars : List Char → List Char → Bool
  | [], _ => true
  | _ :: _, [] => false
  | a :: as, b :: bs => a == b && isPrefixChars as bs

/-- needle occurs as a contiguous substring of hay. -/
def containsChars (needle : List Char) : List Char → Bool
  | [] => needle.isEmpty
  | c :: t => isPrefixChars needle (c :: t) || containsChars needle t

/-- Python substring test: needle in hay. -/
def strContains (hay needle : String) : Bool :=
  containsChars needle.data hay.data

/-- A user record of the USERS table (src/main.py lines 32-41). -/
structure UserRec where
  password : String
  role : String
deriving DecidableEq, Repr

/-- The USERS credential table, in dict insertion order. -/
def USERS : List (String × UserRec) :=
  [("admin", ⟨"lia", "admin"⟩), ("guest", ⟨"guest123", "reader"⟩)]

/-- get_current_user (src/main.py lines 66-86): scan the USERS table in
order, authenticate as the first user whose username occurs in the token as
a substring, returning the username/role pair; none models the 401 raised
when no username matches. -/
def get_current_user (token : String) : Option (String × String) :=
  (USERS.find? (fun u => strContains token u.1)).map (fun u => (u.1, u.2.role))

/-- Derivation of the denormalized name column for a document:
c_data.get with key personalInfo and default the empty dict, then
p_info.get with key name and default the string 未知. -/
def deriveName (d : Doc) : String :=
  match d.personalInfo with
  | some p => p.name.getD "未知"
  | none => "未知"

/-- Derivation of the denormalized customer_service column:
p_info.get with key customerService and default the empty string. -/
def deriveService (d : Doc) : String :=
  match d.personalInfo with
  | some p => p.customerService.getD ""
  | none => ""

/-- The Customer constructor call shared verbatim by save_all_data
(lines 178-184) and save_single_customer (lines 217-223): every column is
recomputed from the incoming document, full_data stores the whole document. -/
def mkCustomer (d : Doc) : Customer :=
  { id := d.id
  , name := deriveName d
  , customer_service := deriveService d
  , full_data := d
  , last_updated := d.lastUpdated.getD "" }

/-- session.merge on the Customer table: if a row with the same primary key
exists it is replaced by the new row, otherwise the new row is inserted. -/
def mergeCustomer (cs : List Customer) (c : Customer) : List Customer :=
  if cs.any (fun x => x.id == c.id) then
    cs.map (fun x => if x.id == c.id then c else x)
  else cs ++ [c]

/-- The upsert loop of save_all_data lines 174-189: merge every incoming
document, in order. -/
def upsertAll (cs : List Customer) (ds : List Doc) : List Customer :=
  ds.foldl (fun a d => mergeCustomer a (mkCustomer d)) cs

/-- Steps B-D of save_all_data (lines 160-171): existing_ids is the list of
persisted ids, ids_to_delete keeps those not contained in the incoming ids,
and the delete loop removes exactly the rows whose id is in ids_to_delete. -/
def remainingAfterDelete (db : List Customer) (ds : List Doc) : List Customer :=
  db.filter (fun c =>
    !(((db.map Customer.id).filter (fun i => !((ds.map Doc.id).contains i))).contains c.id))

/-- Payload of POST /api/save_data: data.get is used with defaults for each
of the three keys, so each is an Option. -/
structure SaveAllPayload where
  customers : Option (List Doc)
  settings : Option SettingsDoc
  nextCustomerId : Option Int
deriving DecidableEq, Repr

/-- The empty dict default of data.get for the settings key. -/
def emptySettings : SettingsDoc :=
  { pageSize := none, sRest := [] }

/-- Outcome of save_all_data.  An httpError outcome carries the store the
caller observes afterwards: the role check fires before any store access,
and the except branch (line 200) rolls the transaction back, so in both
cases that store is the input store. -/
inductive SaveAllOutcome where
  | success (st : Store)
  | httpError (code : Nat) (st : Store)
deriving DecidableEq, Repr

/-- save_all_data (src/main.py lines 143-202).  Role check first; then the
set comprehension building incoming_ids raises KeyError if any record lacks
the id key, which the except branch turns into a 500 after rollback — this
happens before any delete or merge.  Otherwise: delete every persisted row
whose id is not incoming, merge every incoming document, replace both
settings slots wholesale, and commit. -/
def save_all_data (role : String) (data : SaveAllPayload) (st : Store) : SaveAllOutcome :=
  if role ≠ "admin" then .httpError 403 st
  else
    let customer_list := data.customers.getD []
    let settings := data.settings.getD emptySettings
    let next_id := data.nextCustomerId.getD 1
    if customer_list.all (fun d => d.id.isSome) then
      .success
        { customers := upsertAll (remainingAfterDelete st.customers customer_list) customer_list
        , appSettings := some settings
        , nextCustomerId := some next_id }
    else .httpError 500 st

/-- Response of GET /api/load_data. -/
structure LoadResponse where
  customers : List Doc
  settings : SettingsDoc
  nextCustomerId : Int
deriving DecidableEq, Repr

/-- The read default for the appSettings slot: a dict whose pageSize is 10. -/
def defaultSettings : SettingsDoc :=
  { pageSize := some 10, sRest := [] }

/-- load_data (src/main.py lines 130-141): return every stored document, the
settings blob or its default, and the counter or 1. -/
def load_data (st : Store) : LoadResponse :=
  { customers := st.customers.map (·.full_data)
  , settings := st.appSettings.getD defaultSettings
  , nextCustomerId := st.nextCustomerId.getD 1 }

/-- Outcome of save_single_customer; a success carries the id echoed in the
response, which is customer_data.get of the id key and may be none. -/
inductive SaveOneOutcome where
  | success (respId : Option String) (st : Store)
  | httpError (code : Nat) (st : Store)
deriving DecidableEq, Repr

/-- save_single_customer (src/main.py lines 206-232): role check, then
construct a Customer from the payload — customer_data.get of the id key,
yielding None when absent, with no validation — and merge it into the
session.  At session.commit the staged row is written; when its primary key
is None the INSERT violates the NOT NULL constraint of the id column, the
except branch rolls the transaction back and the endpoint answers 500 with
the store unchanged.  With an id present the commit succeeds. -/
def save_single_customer (role : String) (customer_data : Doc) (st : Store) : SaveOneOutcome :=
  if role ≠ "admin" then .httpError 403 st
  else
    let customer_id := customer_data.id
    let customer_obj := mkCustomer customer_data
    let staged := mergeCustomer st.customers customer_obj
    match customer_id with
    | some s => .success (some s) { st with customers := staged }
    | none => .httpError 500 st

/-- Outcome of delete_single_customer: notFound models the 200 response with
status ignored and detail Customer not found. -/
inductive DeleteOutcome where
  | success (deletedId : String) (st : Store)
  | notFound (st : Store)
  | httpError (code : Nat) (st : Store)
deriving DecidableEq, Repr

/-- delete_single_customer (src/main.py lines 235-253): role check, then
fetch by primary key; if present delete the row and commit, else answer with
the non-error ignored response and touch nothing. -/
def delete_single_customer (role : String) (customer_id : String) (st : Store) : DeleteOutcome :=
  if role ≠ "admin" then .httpError 403 st
  else
    match st.customers.find? (fun c => c.id == some customer_id) with
    | some _ =>
        .success customer_id
          { st with customers := st.customers.filter (fun c => !(c.id == some customer_id)) }
    | none => .notFound st

/-- The last document of a list carrying a given id, matching the record
that survives the left-to-right merge loop for that id. -/
def lastWith (i : Option String) : List Doc → Option Doc
  | [] => none
  | d :: t =>
      match lastWith i t with
      | some d2 => some d2
      | none => if d.id == i then some d else none

/-- The row the merge loop leaves for a given stored row: the last incoming
document with the same id wins, rows whose id never occurs stay untouched. -/
def replaceByLast (ds : List Doc) (x : Customer) : Customer :=
  match lastWith x.id ds with
  | some d => mkCustomer d
  | none => x

/-! ### Concrete fixtures used by the witness theorems, following the
scenario of the spec: existing records A, B, C and incoming B, C, D. -/

def docB0 : Doc := ⟨some "B", some ⟨some "OldB", none, []⟩, none, []⟩

def docC0 : Doc := ⟨some "C", none, none, []⟩

def docB : Doc := ⟨some "B", some ⟨some "Bea", some "agent1", []⟩, some "t1", [("note", "b")]⟩

def docC : Doc := ⟨some "C", some ⟨none, none, []⟩, none, []⟩

def docD : Doc := ⟨some "D", none, none, []⟩

def docNoId : Doc := ⟨none, some ⟨some "X", none, []⟩, none, []⟩

def store0 : Store :=
  ⟨[mkCustomer ⟨some "A", none, none, []⟩, mkCustomer docB0, mkCustomer docC0], none, none⟩

def payBCD : SaveAllPayload := ⟨some [docB, docC, docD], none, none⟩

def store1 : Store :=
  ⟨[mkCustomer docB, mkCustomer docC, mkCustomer docD], some emptySettings, some 1⟩

def payBad : SaveAllPayload := ⟨some [docB, docNoId], none, none⟩

/-! ### Helper lemmas about merge, the delete step and the upsert loop -/

theorem contains_iff_mem {α : Type} [BEq α] [LawfulBEq α] (l : List α) (a : α) :
    l.contains a = true ↔ a ∈ l :=
  List.elem_iff

theorem contains_eq_false_iff {α : Type} [BEq α] [LawfulBEq α] (l : List α) (a : α) :
    l.contains a = false ↔ a ∉ l := by
  rw [Bool.eq_false_iff]
  exact not_congr (contains_iff_mem l a)

theorem ids_mergeCustomer (cs : List Customer) (c : Customer) (i : Option String) :
    i ∈ (mergeCustomer cs c).map Customer.id ↔ i ∈ cs.map Customer.id ∨ i = c.id := by
  unfold mergeCustomer
  by_cases h : cs.any (fun x => x.id == c.id) = true
  · rw [if_pos h]
    have hmap : (cs.map fun x => if x.id == c.id then c else x).map Customer.id
        = cs.map Customer.id := by
      rw [List.map_map]
      refine List.map_congr_left ?_
      intro x _
      show (if x.id == c.id then c else x).id = x.id
      by_cases hx : (x.id == c.id) = true
      · rw [if_pos hx]
        exact (eq_of_beq hx).symm
      · rw [if_neg hx]
    rw [hmap]
    constructor
    · exact Or.inl
    · rintro (h1 | rfl)
      · exact h1
      · obtain ⟨x, hxmem, hxbeq⟩ := List.any_eq_true.mp h
        exact eq_of_beq hxbeq ▸ List.mem_map_of_mem Customer.id hxmem
  · rw [if_neg h]
    simp [List.mem_append]

theorem mem_mergeCustomer_cases (cs : List Customer) (c x : Customer)
    (hx : x ∈ mergeCustomer cs c) : x = c ∨ (x ∈ cs ∧ x.id ≠ c.id) := by
  unfold mergeCustomer at hx
  by_cases h : cs.any (fun y => y.id == c.id) = true
  · rw [if_pos h] at hx
    obtain ⟨y, hy, hyx⟩ := List.mem_map.mp hx
    by_cases hyc : (y.id == c.id) = true
    · rw [if_pos hyc] at hyx
      exact Or.inl hyx.symm
    · rw [if_neg hyc] at hyx
      subst hyx
      exact Or.inr ⟨hy, ne_of_beq_false (Bool.eq_false_iff.mpr hyc)⟩
  · rw [if_neg h] at hx
    rcases List.mem_append.mp hx with h1 | h1
    · refine Or.inr ⟨h1, ?_⟩
      intro hid
      apply h
      exact List.any_eq_true.mpr ⟨x, h1, beq_iff_eq.mpr hid⟩
    · exact Or.inl (List.mem_singleton.mp h1)

theorem eq_of_mem_mergeCustomer_of_id (cs : List Customer) (c x : Customer)
    (hx : x ∈ mergeCustomer cs c) (hid : x.id = c.id) : x = c := by
  rcases mem_mergeCustomer_cases cs c x hx with h | ⟨_, hne⟩
  · exact h
  · exact absurd hid hne

theorem mem_of_mem_mergeCustomer_of_ne (cs : List Customer) (c x : Customer)
    (hx : x ∈ mergeCustomer cs c) (hne : x.id ≠ c.id) : x ∈ cs := by
  rcases mem_mergeCustomer_cases cs c x hx with rfl | ⟨h, _⟩
  · exact absurd rfl hne
  · exact h

theorem upsertAll_nil (cs : List Customer) : upsertAll cs [] = cs := rfl

theorem upsertAll_cons (cs : List Customer) (d : Doc) (ds : List Doc) :
    upsertAll cs (d :: ds) = upsertAll (mergeCustomer cs (mkCustomer d)) ds := rfl

theorem lastWith_eq_some (i : Option String) (ds : List Doc) (d : Doc)
    (h : lastWith i ds = some d) : d ∈ ds ∧ d.id = i := by
  induction ds with
  | nil => exact absurd h (by simp [lastWith])
  | cons e t ih =>
    unfold lastWith at h
    cases ht : lastWith i t with
    | some d2 =>
      rw [ht] at h
      injection h with h
      subst h
      obtain ⟨hmem, hid⟩ := ih ht
      exact ⟨List.mem_cons_of_mem e hmem, hid⟩
    | none =>
      rw [ht] at h
      by_cases he : (e.id == i) = true
      · rw [if_pos he] at h
        injection h with h
        exact h ▸ ⟨List.mem_cons_self e t, eq_of_beq he⟩
      · rw [if_neg he] at h
        exact absurd h (by simp)

theorem lastWith_isSome (i : Option String) (ds : List Doc) (d : Doc)
    (hd : d ∈ ds) (hid : d.id = i) : ∃ e, lastWith i ds = some e := by
  induction ds with
  | nil => exact absurd hd (List.not_mem_nil d)
  | cons e t ih =>
    rcases List.mem_cons.mp hd with rfl | hmem
    · cases ht : lastWith i t with
      | some d2 => exact ⟨d2, by unfold lastWith; rw [ht]⟩
      | none =>
        refine ⟨d, ?_⟩
        unfold lastWith
        rw [ht, if_pos (beq_iff_eq.mpr hid)]
    · obtain ⟨e2, he2⟩ := ih hmem
      exact ⟨e2, by unfold lastWith; rw [he2]⟩

theorem mem_upsertAll_cases (ds : List Doc) :
    ∀ (cs : List Customer) (x : Customer), x ∈ upsertAll cs ds →
      (∀ d, lastWith x.id ds = some d → x = mkCustomer d) ∧
      (lastWith x.id ds = none → x ∈ cs) := by
  induction ds with
  | nil =>
    intro cs x hx
    exact ⟨fun d h => absurd h (by simp [lastWith]), fun _ => hx⟩
  | cons e t ih =>
    intro cs x hx
    rw [upsertAll_cons] at hx
    obtain ⟨ihA, ihB⟩ := ih (mergeCustomer cs (mkCustomer e)) x hx
    constructor
    · intro d hd
      unfold lastWith at hd
      cases ht : lastWith x.id t with
      | some d2 =>
        rw [ht] at hd
        injection hd with hd
        exact hd ▸ ihA d2 ht
      | none =>
        rw [ht] at hd
        by_cases he : (e.id == x.id) = true
        · rw [if_pos he] at hd
          injection hd with hd
          subst hd
          exact eq_of_mem_mergeCustomer_of_id _ _ _ (ihB ht) (eq_of_beq he).symm
        · rw [if_neg he] at hd
          exact absurd hd (by simp)
    · intro hnone
      unfold lastWith at hnone
      cases ht : lastWith x.id t with
      | some d2 =>
        rw [ht] at hnone
        exact absurd hnone (by simp)
      | none =>
        rw [ht] at hnone
        by_cases he : (e.id == x.id) = true
        · rw [if_pos he] at hnone
          exact absurd hnone (by simp)
        · rw [if_neg he] at hnone
          refine mem_of_mem_mergeCustomer_of_ne _ _ _ (ihB ht) ?_
          intro hid
          exact he (beq_iff_eq.mpr (show e.id = x.id from hid.symm))

theorem replaceByLast_nil (x : Customer) : replaceByLast [] x = x := rfl

theorem upsertAll_eq_map (ds : List Doc) :
    ∀ cs : List Customer, (∀ d ∈ ds, ∃ x ∈ cs, x.id = d.id) →
      upsertAll cs ds = cs.map (replaceByLast ds) := by
  induction ds with
  | nil =>
    intro cs _
    rw [upsertAll_nil]
    exact (List.map_id'' replaceByLast_nil cs).symm
  | cons e t ih =>
    intro cs hids
    rw [upsertAll_cons]
    have hany : cs.any (fun x => x.id == (mkCustomer e).id) = true := by
      obtain ⟨x, hx, hxe⟩ := hids e (List.mem_cons_self e t)
      exact List.any_eq_true.mpr ⟨x, hx, beq_iff_eq.mpr hxe⟩
    have hmerge : mergeCustomer cs (mkCustomer e)
        = cs.map (fun x => if x.id == (mkCustomer e).id then mkCustomer e else x) := by
      unfold mergeCustomer
      rw [if_pos hany]
    have hgid : ∀ x : Customer,
        (if x.id == (mkCustomer e).id then mkCustomer e else x).id = x.id := by
      intro x
      by_cases hx : (x.id == (mkCustomer e).id) = true
      · rw [if_pos hx]
        exact (eq_of_beq hx).symm
      · rw [if_neg hx]
    have hids2 : ∀ d ∈ t,
        ∃ x ∈ cs.map (fun x => if x.id == (mkCustomer e).id then mkCustomer e else x),
          x.id = d.id := by
      intro d hd
      obtain ⟨x, hx, hxd⟩ := hids d (List.mem_cons_of_mem e hd)
      exact ⟨_, List.mem_map_of_mem _ hx, (hgid x).trans hxd⟩
    rw [hmerge, ih _ hids2, List.map_map]
    refine List.map_congr_left ?_
    intro x _
    show replaceByLast t (if x.id == (mkCustomer e).id then mkCustomer e else x)
        = replaceByLast (e :: t) x
    unfold replaceByLast
    rw [hgid x]
    cases ht : lastWith x.id t with
    | some d =>
      have : lastWith x.id (e :: t) = some d := by
        unfold lastWith
        rw [ht]
      rw [this]
    | none =>
      have : lastWith x.id (e :: t) = if e.id == x.id then some e else none := by
        unfold lastWith
        rw [ht]
      have hmk : (mkCustomer e).id = e.id := rfl
      rw [this, hmk]
      by_cases he : e.id = x.id
      · rw [if_pos (beq_iff_eq.mpr he), if_pos (beq_iff_eq.mpr he.symm)]
      · rw [if_neg (fun hb => he (eq_of_beq hb)),
          if_neg (fun hb => he (eq_of_beq hb).symm)]

theorem map_replaceByLast_self (ds : List Doc) (F : List Customer)
    (hsat : ∀ x ∈ F, ∀ d, lastWith x.id ds = some d → x = mkCustomer d) :
    F.map (replaceByLast ds) = F := by
  have h : ∀ x ∈ F, replaceByLast ds x = id x := by
    intro x hx
    unfold replaceByLast
    cases ht : lastWith x.id ds with
    | some d => exact (hsat x hx d ht).symm
    | none => rfl
  rw [List.map_congr_left h, List.map_id]

theorem ids_upsertAll (ds : List Doc) :
    ∀ (cs : List Customer) (i : Option String),
      i ∈ (upsertAll cs ds).map Customer.id ↔
        i ∈ cs.map Customer.id ∨ ∃ d ∈ ds, d.id = i := by
  induction ds with
  | nil =>
    intro cs i
    simp [upsertAll_nil]
  | cons e t ih =>
    intro cs i
    rw [upsertAll_cons, ih, ids_mergeCustomer]
    have hmk : (mkCustomer e).id = e.id := rfl
    rw [hmk]
    constructor
    · rintro ((h | rfl) | ⟨d, hd, rfl⟩)
      · exact Or.inl h
      · exact Or.inr ⟨e, List.mem_cons_self e t, rfl⟩
      · exact Or.inr ⟨d, List.mem_cons_of_mem e hd, rfl⟩
    · rintro (h | ⟨d, hd, rfl⟩)
      · exact Or.inl (Or.inl h)
      · rcases List.mem_cons.mp hd with rfl | hmem
        · exact Or.inl (Or.inr rfl)
        · exact Or.inr ⟨d, hmem, rfl⟩

theorem mem_remainingAfterDelete (db : List Customer) (ds : List Doc) (c : Customer) :
    c ∈ remainingAfterDelete db ds ↔ c ∈ db ∧ ∃ d ∈ ds, d.id = c.id := by
  unfold remainingAfterDelete
  rw [List.mem_filter]
  constructor
  · rintro ⟨hdb, hcond⟩
    refine ⟨hdb, ?_⟩
    rw [Bool.not_eq_true', contains_eq_false_iff] at hcond
    by_contra hno
    apply hcond
    rw [List.mem_filter]
    refine ⟨List.mem_map_of_mem Customer.id hdb, ?_⟩
    rw [Bool.not_eq_true', contains_eq_false_iff]
    intro hmem
    obtain ⟨d, hd, hdc⟩ := List.mem_map.mp hmem
    exact hno ⟨d, hd, hdc⟩
  · rintro ⟨hdb, d, hd, hdc⟩
    refine ⟨hdb, ?_⟩
    rw [Bool.not_eq_true', contains_eq_false_iff]
    intro hmem
    rw [List.mem_filter] at hmem
    obtain ⟨_, hbad⟩ := hmem
    rw [Bool.not_eq_true', contains_eq_false_iff] at hbad
    exact hbad (hdc ▸ List.mem_map_of_mem Doc.id hd)

theorem self_mem_mergeCustomer (cs : List Customer) (c : Customer) :
    c ∈ mergeCustomer cs c := by
  unfold mergeCustomer
  by_cases h : cs.any (fun x => x.id == c.id) = true
  · rw [if_pos h]
    obtain ⟨x, hx, hxc⟩ := List.any_eq_true.mp h
    refine List.mem_map.mpr ⟨x, hx, ?_⟩
    rw [if_pos hxc]
  · rw [if_neg h]
    exact List.mem_append.mpr (Or.inr (List.mem_cons_self c []))

theorem save_all_data_success_iff (role : String) (data : SaveAllPayload) (st st' : Store) :
    save_all_data role data st = .success st' ↔
      role = "admin" ∧
      ((data.customers.getD []).all fun d => d.id.isSome) = true ∧
      st' = { customers :=
                upsertAll (remainingAfterDelete st.customers (data.customers.getD []))
                  (data.customers.getD [])
            , appSettings := some (data.settings.getD emptySettings)
            , nextCustomerId := some (data.nextCustomerId.getD 1) } := by
  unfold save_all_data
  by_cases hrole : role = "admin"
  · rw [if_neg (by simp [hrole])]
    by_cases hall : ((data.customers.getD []).all fun d => d.id.isSome) = true
    · rw [if_pos hall]
      constructor
      · intro h
        injection h with h
        exact ⟨hrole, hall, h.symm⟩
      · rintro ⟨-, -, rfl⟩
        rfl
    · rw [if_neg hall]
      constructor
      · intro h
        exact absurd h (by simp)
      · rintro ⟨-, h2, -⟩
        exact absurd h2 hall
  · rw [if_pos hrole]
    constructor
    · intro h
      exact absurd h (by simp)
    · rintro ⟨h1, -, -⟩
      exact absurd h1 hrole

/-! ### Claim theorems -/

/-- C5: for every caller whose role is not admin, each of the three write
operations — batch save_all_data, single-record save, single-record delete —
answers 403 before touching the store, and the store the caller observes
afterwards is the unchanged input store. -/
theorem c5_authorization_gating (role : String) (hrole : role ≠ "admin")
    (data : SaveAllPayload) (d : Doc) (cid : String) (st : Store) :
    save_all_data role data st = .httpError 403 st ∧
    save_single_customer role d st = .httpError 403 st ∧
    delete_single_customer role cid st = .httpError 403 st := by
  refine ⟨?_, ?_, ?_⟩
  · unfold save_all_data
    rw [if_pos hrole]
  · unfold save_single_customer
    rw [if_pos hrole]
  · unfold delete_single_customer
    rw [if_pos hrole]

/-- C7: when the appSettings slot was never written, load_data answers the
settings dict with pageSize 10; when the nextCustomerId slot was never
written, it answers the counter 1. -/
theorem c7_settings_read_defaults (st : Store) :
    (st.appSettings = none →
        (load_data st).settings = { pageSize := some 10, sRest := [] }) ∧
    (st.nextCustomerId = none → (load_data st).nextCustomerId = 1) := by
  constructor
  · intro h
    simp [load_data, h, defaultSettings]
  · intro h
    simp [load_data, h]

/-- C8: an admin delete of an id not present in the store answers the
non-error ignored response with the store unchanged; a delete of a present
id answers success and physically removes exactly the rows with that id,
leaving the settings slots untouched. -/
theorem c8_delete_single_semantics (cid : String) (st : Store) :
    ((∀ c ∈ st.customers, c.id ≠ some cid) →
        delete_single_customer "admin" cid st = .notFound st) ∧
    ((∃ c ∈ st.customers, c.id = some cid) →
        ∃ st2, delete_single_customer "admin" cid st = .success cid st2 ∧
          (∀ c, c ∈ st2.customers ↔ c ∈ st.customers ∧ c.id ≠ some cid) ∧
          st2.appSettings = st.appSettings ∧
          st2.nextCustomerId = st.nextCustomerId) := by
  constructor
  · intro hnone
    unfold delete_single_customer
    rw [if_neg (fun h => h rfl)]
    have hfind : st.customers.find? (fun c => c.id == some cid) = none := by
      rw [List.find?_eq_none]
      intro c hc hb
      exact hnone c hc (eq_of_beq hb)
    rw [hfind]
  · intro hsome
    unfold delete_single_customer
    rw [if_neg (fun h => h rfl)]
    have hfind : (st.customers.find? (fun c => c.id == some cid)).isSome := by
      rw [List.find?_isSome]
      obtain ⟨c, hc, hcid⟩ := hsome
      exact ⟨c, hc, beq_iff_eq.mpr hcid⟩
    obtain ⟨y, hy⟩ := Option.isSome_iff_exists.mp hfind
    rw [hy]
    refine ⟨_, rfl, ?_, rfl, rfl⟩
    intro c
    show c ∈ st.customers.filter (fun c => !(c.id == some cid)) ↔
      c ∈ st.customers ∧ c.id ≠ some cid
    rw [List.mem_filter]
    simp

/-- C9 (implicit): the single-record save path performs no precondition
check that the payload contains the id key — no validation error is raised
before mutating; the handler constructs a row whose id is None, stages it in
the session, and attempts the write; the attempted commit then fails the
NOT NULL primary-key constraint — a storage-layer 500 after rollback, the
store unchanged, not a validation rejection — while the staged row is the
Customer built from the payload with id None. -/
theorem c9_single_save_no_id_validation (d : Doc) (hd : d.id = none) (st : Store) :
    (mkCustomer d).id = none ∧
    (∃ c ∈ mergeCustomer st.customers (mkCustomer d), c.id = none) ∧
    save_single_customer "admin" d st = .httpError 500 st := by
  refine ⟨hd, ⟨mkCustomer d, self_mem_mergeCustomer st.customers (mkCustomer d), hd⟩, ?_⟩
  unfold save_single_customer
  rw [if_neg (fun h => h rfl)]
  rw [hd]

/-- C10 (implicit): token authentication is a substring check against the
configured usernames, scanned in table order — any token containing admin is
authenticated as the admin user with the admin role, any token containing
guest but not admin as the guest user with the reader role, and a token
containing neither is rejected, independently of how the token was made. -/
theorem c10_substring_token_auth (token : String) :
    (strContains token "admin" = true →
        get_current_user token = some ("admin", "admin")) ∧
    (strContains token "admin" = false → strContains token "guest" = true →
        get_current_user token = some ("guest", "reader")) ∧
    (strContains token "admin" = false → strContains token "guest" = false →
        get_current_user token = none) := by
  refine ⟨?_, ?_, ?_⟩
  · intro h
    unfold get_current_user USERS
    rw [List.find?_cons_of_pos _ (by simpa using h)]
    rfl
  · intro h1 h2
    unfold get_current_user USERS
    rw [List.find?_cons_of_neg _ (by simpa using h1),
      List.find?_cons_of_pos _ (by simpa using h2)]
    rfl
  · intro h1 h2
    unfold get_current_user USERS
    rw [List.find?_cons_of_neg _ (by simpa using h1),
      List.find?_cons_of_neg _ (by simpa using h2)]
    rfl

/-- C4 counterexample: upserting a document with no personalInfo object
stores the literal 未知 as the name column, which is not the string
unknown the claim states. -/
theorem c4_counterexample :
    save_single_customer "admin" ⟨some "x1", none, none, []⟩ ⟨[], none, none⟩ =
      .success (some "x1")
        ⟨[⟨some "x1", "未知", "", ⟨some "x1", none, none, []⟩, ""⟩], none, none⟩ ∧
    "未知" ≠ "unknown" := by
  constructor
  · rfl
  · decide

/-- C4 amended: for every upserted record whose document lacks a
personalInfo object or whose personalInfo lacks the name field, the stored
name is the literal 未知 (the Chinese word for unknown) — not the English
string unknown — and when customerService is missing the stored
customer_service is the empty string. -/
theorem c4_derivation_defaults (d : Doc) :
    ((∀ p, d.personalInfo = some p → p.name = none) → (mkCustomer d).name = "未知") ∧
    ((∀ p, d.personalInfo = some p → p.customerService = none) →
        (mkCustomer d).customer_service = "") := by
  constructor
  · intro h
    show deriveName d = "未知"
    unfold deriveName
    cases hp : d.personalInfo with
    | none => rfl
    | some p =>
      show p.name.getD "未知" = "未知"
      rw [h p hp]
      rfl
  · intro h
    show deriveService d = ""
    unfold deriveService
    cases hp : d.personalInfo with
    | none => rfl
    | some p =>
      show p.customerService.getD "" = ""
      rw [h p hp]
      rfl

/-- C1: whenever save_all_data completes successfully, the set of persisted
customer ids equals exactly the set of ids of the incoming list — ids absent
from the incoming set are deleted and every incoming id is present. -/
theorem c1_membership_convergence (role : String) (data : SaveAllPayload)
    (st st' : Store) (h : save_all_data role data st = .success st')
    (i : Option String) :
    (∃ c ∈ st'.customers, c.id = i) ↔ ∃ d ∈ data.customers.getD [], d.id = i := by
  obtain ⟨-, -, rfl⟩ := (save_all_data_success_iff role data st st').mp h
  calc (∃ c ∈ upsertAll (remainingAfterDelete st.customers (data.customers.getD []))
          (data.customers.getD []), c.id = i)
      ↔ i ∈ (upsertAll (remainingAfterDelete st.customers (data.customers.getD []))
          (data.customers.getD [])).map Customer.id := List.mem_map.symm
    _ ↔ i ∈ (remainingAfterDelete st.customers (data.customers.getD [])).map Customer.id ∨
          ∃ d ∈ data.customers.getD [], d.id = i := ids_upsertAll _ _ _
    _ ↔ ∃ d ∈ data.customers.getD [], d.id = i := by
          constructor
          · rintro (hrem | h2)
            · obtain ⟨x, hx, hxi⟩ := List.mem_map.mp hrem
              obtain ⟨-, d, hd, hdx⟩ := (mem_remainingAfterDelete _ _ x).mp hx
              exact ⟨d, hd, hdx.trans hxi⟩
            · exact h2
          · exact Or.inr

/-- C2: a batch containing a record without the id key is rejected whole —
500 from the admin path after the KeyError raised while building
incoming_ids, before any delete or upsert, or 403 from the role gate — and
the store the caller observes afterwards, customer rows and both settings
slots alike, is the unchanged input store. -/
theorem c2_batch_validation_atomicity (role : String) (data : SaveAllPayload)
    (st : Store) (hbad : ∃ d ∈ data.customers.getD [], d.id = none) :
    (role = "admin" → save_all_data role data st = .httpError 500 st) ∧
    (role ≠ "admin" → save_all_data role data st = .httpError 403 st) := by
  constructor
  · intro hrole
    unfold save_all_data
    rw [if_neg (by simp [hrole])]
    have hall : ¬ (((data.customers.getD []).all fun d => d.id.isSome) = true) := by
      intro hall
      obtain ⟨d, hd, hid⟩ := hbad
      have := List.all_eq_true.mp hall d hd
      rw [hid] at this
      exact absurd this (by simp)
    rw [if_neg hall]
  · intro hrole
    unfold save_all_data
    rw [if_pos hrole]

/-- C3: every row persisted by a successful batch save is exactly the
Customer built from one of the incoming documents, so its name and
customer_service columns equal the values derived from its own stored
document; likewise, after a successful single-record save every stored row
carrying the saved id is exactly the Customer built from the new document —
fields are wholesale-replaced, never merged with the old document. -/
theorem c3_denormalized_invariant (role : String) (data : SaveAllPayload)
    (st st' : Store) (dd : Doc) (sst sst' : Store) (rid : Option String) :
    (save_all_data role data st = .success st' →
      ∀ c ∈ st'.customers,
        c.name = deriveName c.full_data ∧
        c.customer_service = deriveService c.full_data ∧
        ∃ d ∈ data.customers.getD [], c = mkCustomer d) ∧
    (save_single_customer role dd sst = .success rid sst' →
      ∀ c ∈ sst'.customers, c.id = dd.id →
        c = mkCustomer dd ∧
        c.name = deriveName c.full_data ∧
        c.customer_service = deriveService c.full_data) := by
  constructor
  · intro h c hc
    obtain ⟨-, -, rfl⟩ := (save_all_data_success_iff role data st st').mp h
    obtain ⟨hA, hB⟩ := mem_upsertAll_cases (data.customers.getD []) _ c hc
    cases hl : lastWith c.id (data.customers.getD []) with
    | some d =>
      have hcd : c = mkCustomer d := hA d hl
      obtain ⟨hd, -⟩ := lastWith_eq_some _ _ _ hl
      subst hcd
      exact ⟨rfl, rfl, d, hd, rfl⟩
    | none =>
      obtain ⟨-, d, hd, hdc⟩ := (mem_remainingAfterDelete _ _ c).mp (hB hl)
      obtain ⟨e, he⟩ := lastWith_isSome c.id _ d hd hdc
      rw [he] at hl
      exact absurd hl (by simp)
  · intro h c hc hcid
    by_cases hrole : role = "admin"
    · unfold save_single_customer at h
      rw [if_neg (by simp [hrole])] at h
      cases hdd : dd.id with
      | none =>
        rw [hdd] at h
        exact absurd h (by simp)
      | some s =>
        rw [hdd] at h
        injection h with h1 h2
        subst h2
        have hcd : c = mkCustomer dd :=
          eq_of_mem_mergeCustomer_of_id _ _ _ hc hcid
        subst hcd
        exact ⟨rfl, rfl, rfl⟩
    · unfold save_single_customer at h
      rw [if_pos hrole] at h
      exact absurd h (by simp)

/-- C6: synchronizing twice with the same payload is idempotent — if the
first save_all_data run succeeds and leaves store st1, running it again
with the same payload succeeds and leaves st1 unchanged. -/
theorem c6_sync_idempotent (role : String) (data : SaveAllPayload)
    (st st1 : Store) (h : save_all_data role data st = .success st1) :
    save_all_data role data st1 = .success st1 := by
  obtain ⟨hrole, hall, rfl⟩ := (save_all_data_success_iff role data st st1).mp h
  apply (save_all_data_success_iff role data _ _).mpr
  refine ⟨hrole, hall, ?_⟩
  have hFidsub : ∀ c ∈ upsertAll (remainingAfterDelete st.customers
      (data.customers.getD [])) (data.customers.getD []),
      ∃ d ∈ data.customers.getD [], d.id = c.id := by
    intro c hc
    have hmem : c.id ∈ (upsertAll (remainingAfterDelete st.customers
        (data.customers.getD [])) (data.customers.getD [])).map Customer.id :=
      List.mem_map_of_mem Customer.id hc
    rw [ids_upsertAll] at hmem
    rcases hmem with hrem | h2
    · obtain ⟨x, hx, hxc⟩ := List.mem_map.mp hrem
      obtain ⟨-, d, hd, hdx⟩ := (mem_remainingAfterDelete _ _ x).mp hx
      exact ⟨d, hd, hdx.trans hxc⟩
    · exact h2
  have hrem2 : remainingAfterDelete (upsertAll (remainingAfterDelete st.customers
      (data.customers.getD [])) (data.customers.getD [])) (data.customers.getD [])
      = upsertAll (remainingAfterDelete st.customers (data.customers.getD []))
        (data.customers.getD []) := by
    unfold remainingAfterDelete
    rw [List.filter_eq_self]
    intro c hc
    obtain ⟨d, hd, hdc⟩ := hFidsub c hc
    have hmem := (mem_remainingAfterDelete _ (data.customers.getD []) c).mpr
      ⟨hc, d, hd, hdc⟩
    exact (List.mem_filter.mp hmem).2
  have hsat : ∀ x ∈ upsertAll (remainingAfterDelete st.customers
      (data.customers.getD [])) (data.customers.getD []),
      ∀ d, lastWith x.id (data.customers.getD []) = some d → x = mkCustomer d := by
    intro x hx d hlast
    exact (mem_upsertAll_cases (data.customers.getD []) _ x hx).1 d hlast
  have hidsF : ∀ d ∈ data.customers.getD [],
      ∃ x ∈ upsertAll (remainingAfterDelete st.customers (data.customers.getD []))
        (data.customers.getD []), x.id = d.id := by
    intro d hd
    have : d.id ∈ (upsertAll (remainingAfterDelete st.customers
        (data.customers.getD [])) (data.customers.getD [])).map Customer.id :=
      (ids_upsertAll _ _ d.id).mpr (Or.inr ⟨d, hd, rfl⟩)
    obtain ⟨x, hx, hxd⟩ := List.mem_map.mp this
    exact ⟨x, hx, hxd⟩
  have hfix : upsertAll (upsertAll (remainingAfterDelete st.customers
      (data.customers.getD [])) (data.customers.getD [])) (data.customers.getD [])
      = upsertAll (remainingAfterDelete st.customers (data.customers.getD []))
        (data.customers.getD []) := by
    rw [upsertAll_eq_map _ _ hidsF, map_replaceByLast_self _ _ hsat]
  have hX : upsertAll (remainingAfterDelete (upsertAll (remainingAfterDelete
      st.customers (data.customers.getD [])) (data.customers.getD []))
      (data.customers.getD [])) (data.customers.getD [])
      = upsertAll (remainingAfterDelete st.customers (data.customers.getD []))
        (data.customers.getD []) := by
    rw [hrem2]
    exact hfix
  exact congrArg (fun cs => Store.mk cs (some (data.settings.getD emptySettings))
    (some (data.nextCustomerId.getD 1))) hX.symm

/-! ### Witnesses: the claim theorems applied to the concrete fixtures -/

/-- C1 witness: the spec scenario existing A, B, C and incoming B, C, D. -/
theorem c1_witness :
    (∃ c ∈ store1.customers, c.id = some "D") ↔
      ∃ d ∈ payBCD.customers.getD [], d.id = some "D" :=
  c1_membership_convergence "admin" payBCD store0 store1 (by decide) (some "D")

/-- C2 witness: a batch with one record lacking id is rejected with 500 and
the store is unchanged. -/
theorem c2_witness :
    save_all_data "admin" payBad store0 = .httpError 500 store0 :=
  (c2_batch_validation_atomicity "admin" payBad store0 (by decide)).1 rfl

/-- C3 witness: the persisted row for id B after the scenario batch has its
columns derived from its own stored document. -/
theorem c3_witness :
    (mkCustomer docB).name = deriveName (mkCustomer docB).full_data ∧
    (mkCustomer docB).customer_service = deriveService (mkCustomer docB).full_data ∧
    ∃ d ∈ payBCD.customers.getD [], mkCustomer docB = mkCustomer d :=
  (c3_denormalized_invariant "admin" payBCD store0 store1 docD store0 store1
    (some "D")).1 (by decide) (mkCustomer docB) (by decide)

/-- C4 witness: a document without personalInfo stores name 未知 and empty
customer_service. -/
theorem c4_witness :
    (mkCustomer docD).name = "未知" ∧ (mkCustomer docD).customer_service = "" :=
  ⟨(c4_derivation_defaults docD).1 (fun _ hp => nomatch hp),
    (c4_derivation_defaults docD).2 (fun _ hp => nomatch hp)⟩

/-- C5 witness: the reader role is rejected with 403 by all three writes. -/
theorem c5_witness :
    save_all_data "reader" payBCD store0 = .httpError 403 store0 ∧
    save_single_customer "reader" docD store0 = .httpError 403 store0 ∧
    delete_single_customer "reader" "B" store0 = .httpError 403 store0 :=
  c5_authorization_gating "reader" (by decide) payBCD docD "B" store0

/-- C6 witness: re-running the scenario batch on its own result changes
nothing. -/
theorem c6_witness : save_all_data "admin" payBCD store1 = .success store1 :=
  c6_sync_idempotent "admin" payBCD store0 store1 (by decide)

/-- C7 witness: reading a never-written store yields pageSize 10 and 1. -/
theorem c7_witness :
    (load_data ⟨[], none, none⟩).settings = { pageSize := some 10, sRest := [] } ∧
    (load_data ⟨[], none, none⟩).nextCustomerId = 1 :=
  ⟨(c7_settings_read_defaults ⟨[], none, none⟩).1 rfl,
    (c7_settings_read_defaults ⟨[], none, none⟩).2 rfl⟩

/-- C8 witness: deleting the unknown id Z answers the ignored response and
leaves the store unchanged. -/
theorem c8_witness : delete_single_customer "admin" "Z" store0 = .notFound store0 :=
  (c8_delete_single_semantics "Z" store0).1 (by decide)

/-- C9 witness: saving a payload without id raises no validation error and
stages a row whose id is None; the attempted commit fails with 500 and the
store is unchanged. -/
theorem c9_witness :
    (mkCustomer docNoId).id = none ∧
    (∃ c ∈ mergeCustomer store0.customers (mkCustomer docNoId), c.id = none) ∧
    save_single_customer "admin" docNoId store0 = .httpError 500 store0 :=
  c9_single_save_no_id_validation docNoId rfl store0

/-- C10 witness: a token never issued by login but containing admin is
granted the admin role. -/
theorem c10_witness :
    get_current_user "made-up-admin-token" = some ("admin", "admin") :=
  (c10_substring_token_auth "made-up-admin-token").1 (by decide)

end CustomerSystem
